import Mathlib

/-!
Verification of the catalog synchronization pipeline of the phone-number
rental storefront repository.  The definitions below are a shallow
embedding of the JavaScript source: the retry executor `withRetry`, the
country resolver of `country-mapper.js`, the normalization and grouping
loop of `runUpdate`, the shadow-then-swap publisher, and the read-path
price converter `convertToToman`.  Machine numbers are modelled as
rationals, JavaScript objects and Maps as insertion-ordered association
lists, and JavaScript truthiness is made explicit where the source
relies on it.
-/

/-! ## JavaScript string and value helpers -/

/-- The translation of the JavaScript `toLowerCase()` call (ASCII, as
produced by the provider identifiers this pipeline handles). -/
def jsToLower (s : String) : String := ⟨s.data.map Char.toLower⟩

/-- Characters removed by the JavaScript `trim()` call. -/
def isJsWhitespace (c : Char) : Bool :=
  c == ' ' || c == '\t' || c == '\n' || c == '\r'

/-- The translation of the JavaScript `trim()` call. -/
def jsTrim (s : String) : String :=
  ⟨((s.data.dropWhile isJsWhitespace).reverse.dropWhile isJsWhitespace).reverse⟩

/-- Lowercase and strip every character outside of lowercase a-z, 0-9,
that is, the `toLowerCase().replace()` combination used for canonical
keys throughout the source. -/
def jsCanonical (s : String) : String :=
  ⟨(jsToLower s).data.filter fun c => ('a' ≤ c && c ≤ 'z') || ('0' ≤ c && c ≤ '9')⟩

/-- JavaScript `a || b` where `a` is a possibly-undefined string: the
default is taken when `a` is undefined or the empty string. -/
def jsOrStr (a : Option String) (b : String) : String :=
  match a with
  | some v => if v == "" then b else v
  | none => b

/-- Truthiness of a possibly-undefined JavaScript string. -/
def optStrTruthy (o : Option String) : Bool :=
  match o with
  | some s => !(s == "")
  | none => false

/-- JavaScript `a || b` where both operands are object lookups, which
are truthy exactly when present. -/
def jsOrOpt {α : Type} (a b : Option α) : Option α :=
  match a with
  | some v => some v
  | none => b

/-- JavaScript `x || d` on a possibly-undefined number (`0` is falsy). -/
def jsOrInt (o : Option Int) (d : Int) : Int :=
  match o with
  | some v => if v == 0 then d else v
  | none => d

/-- JavaScript `Number(x) || 0`: a missing or non-numeric cost collapses
to zero. -/
def numOr0 (o : Option ℚ) : ℚ :=
  match o with
  | some v => v
  | none => 0

/-! ## Insertion-ordered association lists

JavaScript plain objects and `Map` values preserve insertion order;
`alistSet` overwrites in place or appends at the end exactly as
`map.set` does, and `alistGet` is `map.get` / property lookup. -/

def alistGet {α : Type} : List (String × α) → String → Option α
  | [], _ => none
  | (k', v') :: rest, k => if k' == k then some v' else alistGet rest k

def alistSet {α : Type} : List (String × α) → String → α → List (String × α)
  | [], k, v => [(k, v)]
  | (k', v') :: rest, k, v =>
    if k' == k then (k, v) :: rest else (k', v') :: alistSet rest k v

/-! ## Canonical country resolver (country-mapper.js)

The two static reference tables and the provider country list are data
files of the repository; the construction below takes them as explicit
parameters and is otherwise the build loop of `country-mapper.js`. -/

structure CountryData where
  persian : String
  code : String
  original : String
deriving DecidableEq, Repr

/-- The `generateCanonicalName` helper of country-mapper.js. -/
def generateCanonicalName (s : String) : String := jsCanonical s

/-- The module-load loops of country-mapper.js: first every
provider-supplied country name whose canonical key has a truthy Persian
translation and a truthy dialing code, then every translation-table key
not already present whose canonical key has a truthy dialing code. -/
def countryMapStep1 (countryTranslations countryCodes : List (String × String))
    (m : List (String × CountryData)) (name : String) : List (String × CountryData) :=
  match alistGet countryTranslations (generateCanonicalName name),
      alistGet countryCodes (generateCanonicalName name) with
  | some persianName, some code =>
    if !(persianName == "") && !(code == "") then
      alistSet m (generateCanonicalName name) ⟨persianName, code, name⟩
    else m
  | _, _ => m

def countryMapStep2 (countryCodes : List (String × String))
    (m : List (String × CountryData)) (kv : String × String) : List (String × CountryData) :=
  if (alistGet m (generateCanonicalName kv.1)).isSome then m
  else
    match alistGet countryCodes (generateCanonicalName kv.1) with
    | some code =>
      if !(code == "") then alistSet m (generateCanonicalName kv.1) ⟨kv.2, code, kv.1⟩ else m
    | none => m

def buildUnifiedCountryMap (smsActivateCountries : List String)
    (countryTranslations countryCodes : List (String × String)) :
    List (String × CountryData) :=
  countryTranslations.foldl (countryMapStep2 countryCodes)
    (smsActivateCountries.foldl (countryMapStep1 countryTranslations countryCodes) [])

/-- The `getCountryDataByCanonicalName` lookup of country-mapper.js,
over an explicitly passed unified map. -/
def getCountryDataByCanonicalName (m : List (String × CountryData)) (name : String) :
    Option CountryData :=
  alistGet m (generateCanonicalName name)

/-! ## Retry executor (withRetry of the update script) -/

/-- The shape of an axios failure: the HTTP status of the response,
when one is present. -/
structure JsError where
  status : Option Nat
deriving DecidableEq, Repr

/-- The retry classification of `withRetry`: an error is retried exactly
when `status === 429 || status >= 500`; a missing status compares as
false in JavaScript. -/
def isRetryableStatus (status : Option Nat) : Bool :=
  match status with
  | some s => s == 429 || decide (500 ≤ s)
  | none => false

/-- The attempt loop of `withRetry`: `fn` gives the outcome of each
invocation (indexed by attempt number), the fuel is the number of
remaining loop iterations, and the accumulator carries `lastError`.
The returned number counts the invocations of the operation that were
actually performed. -/
def withRetryGo {α : Type} (fn : Nat → Except JsError α) (i : Nat) :
    Nat → Option JsError → (Except (Option JsError) α) × Nat
  | 0, lastError => (.error lastError, 0)
  | fuel + 1, _ =>
    match fn i with
    | .ok a => (.ok a, 1)
    | .error e =>
      if isRetryableStatus e.status then
        let r := withRetryGo fn (i + 1) fuel (some e)
        (r.1, r.2 + 1)
      else
        (.error (some e), 1)

/-- The `withRetry` wrapper of the update script: run `fn` up to
`retries` times, retrying only classified-transient failures, and
raise the last observed error after exhausting the attempts. -/
def withRetry {α : Type} (fn : Nat → Except JsError α) (retries : Nat) :
    (Except (Option JsError) α) × Nat :=
  withRetryGo fn 0 retries none

/-! ## Price converter of the read path (src/services/priceConverter.js) -/

structure SarfeRates where
  rub : ℚ
  usd : ℚ
deriving DecidableEq, Repr

/-- The `convertToToman` function: pick the rate by currency tag,
apply the profit margin, and round the result up to the configured
rounding precision. -/
def convertToToman (profitMargin roundingPrecision : ℚ) (price : ℚ)
    (currency : String) (rates : SarfeRates) : ℚ :=
  let rate : ℚ :=
    if currency == "RUB" then rates.rub
    else if currency == "USD" then rates.usd
    else 1
  let convertedPrice := price * rate
  (⌈convertedPrice * (1 + profitMargin) / roundingPrecision⌉ : ℤ) * roundingPrecision

/-! ## Normalizer and merger (the main loop of runUpdate) -/

/-- One raw offering record as pushed onto `allServicesRaw` by the two
provider adapters. -/
structure RawService where
  provider : String
  country : String
  service : String
  service_name : Option String
  operator : String
  price : Option ℚ
  count : Int
  rate : ℚ
deriving DecidableEq, Repr

/-- One entry of the `servicePriority` table: an optional Persian
display name and an optional priority rank. -/
structure PriorityInfo where
  name : Option String
  priority : Option Int
deriving DecidableEq, Repr

/-- The per-run context of the normalization loop: the static priority
table, the unified country map, and the two currency rates refreshed at
the start of the run. -/
structure RunConfig where
  servicePriority : List (String × PriorityInfo)
  countryMap : List (String × CountryData)
  usdToTomanRate : ℚ
  rubToTomanRate : ℚ
deriving Repr

/-- One published catalog entry, the `formattedService` object. -/
structure FormattedService where
  id : String
  service : String
  service_persian : String
  country : String
  country_persian : String
  country_code : String
  operator : String
  price_toman : Int
  priority : Int
  available : Bool
  success_rate : ℚ
  provider : String
deriving DecidableEq, Repr

/-- The JavaScript title-casing of one whitespace-separated word:
uppercase first character, lowercase remainder. -/
def titleCaseWord (w : String) : String :=
  match w.data with
  | [] => ""
  | c :: rest => ⟨Char.toUpper c :: rest.map Char.toLower⟩

/-- The unknown-service fallback display name: title-case every word of
the canonical English name. -/
def titleCaseWords (s : String) : String :=
  String.intercalate " " ((s.splitOn " ").map titleCaseWord)

/-- The body of the `for (const s of allServicesRaw)` loop of
`runUpdate` for a single record: the produced catalog entry (none when
the record is dropped by one of the skip paths) together with whether
`s.service` is added to the `unknownServiceCodes` set. -/
def processRecord (cfg : RunConfig) (s : RawService) :
    Option FormattedService × Bool :=
  let cleanServiceCode := jsTrim (jsToLower s.service)
  let cleanCountry := jsTrim (jsToLower s.country)
  let canonicalEnglishName := jsOrStr s.service_name s.service
  if canonicalEnglishName == "" then (none, true)
  else
    let canonicalKeyFromName := jsCanonical canonicalEnglishName
    let priorityInfo :=
      jsOrOpt (alistGet cfg.servicePriority canonicalKeyFromName)
        (alistGet cfg.servicePriority cleanServiceCode)
    let persianFromInfo := priorityInfo.bind PriorityInfo.name
    let servicePersian :=
      if optStrTruthy persianFromInfo then persianFromInfo.getD ""
      else titleCaseWords canonicalEnglishName
    let unknownFlag := !(optStrTruthy persianFromInfo) && priorityInfo.isNone
    match getCountryDataByCanonicalName cfg.countryMap cleanCountry with
    | none => (none, unknownFlag)
    | some countryData =>
      let basePriceToman :=
        numOr0 s.price *
          (if s.provider == "sms-activate" then cfg.usdToTomanRate else cfg.rubToTomanRate)
      if basePriceToman ≤ 0 then (none, unknownFlag)
      else
        (some {
          id := "srv_" ++ cleanServiceCode ++ "_" ++ cleanCountry ++ "_" ++
            s.operator ++ "_" ++ s.provider
          service := s.service
          service_persian := servicePersian
          country := s.country
          country_persian := countryData.persian
          country_code := countryData.code
          operator := s.operator
          price_toman := ⌈basePriceToman * (14 / 10 : ℚ)⌉
          priority := jsOrInt (priorityInfo.bind PriorityInfo.priority) 999
          available := decide (0 < s.count)
          success_rate := s.rate
          provider := s.provider }, unknownFlag)

/-- The catalog entry produced for one raw record, when any. -/
def processRaw (cfg : RunConfig) (s : RawService) : Option FormattedService :=
  (processRecord cfg s).1

/-- The grouping key of the `serviceMap`. -/
def mapKeyOf (f : FormattedService) : String :=
  f.service_persian ++ "_" ++ f.country_persian

/-- Append an entry to its group of the `serviceMap`, creating the
group at the end when the key is new (JavaScript `Map` semantics). -/
def pushGroup {α : Type} : List (String × List α) → String → α → List (String × List α)
  | [], k, f => [(k, [f])]
  | (k', l) :: rest, k, f =>
    if k' == k then (k', l ++ [f]) :: rest else (k', l) :: pushGroup rest k f

/-- The mutable state of one run of the loop: the `serviceMap` groups
and the `unknownServiceCodes` set (as an insertion-ordered list). -/
structure RunState where
  groups : List (String × List FormattedService)
  unknownServiceCodes : List String
deriving DecidableEq, Repr

/-- Insertion into the `unknownServiceCodes` JavaScript `Set`. -/
def addUnknown (l : List String) (s : String) : List String :=
  if l.contains s then l else l ++ [s]

/-- One iteration of the normalization loop on the run state. -/
def processStep (cfg : RunConfig) (st : RunState) (s : RawService) : RunState :=
  let r := processRecord cfg s
  let st1 :=
    if r.2 then { st with unknownServiceCodes := addUnknown st.unknownServiceCodes s.service }
    else st
  match r.1 with
  | none => st1
  | some f => { st1 with groups := pushGroup st1.groups (mapKeyOf f) f }

/-- The whole normalization loop of `runUpdate` over the raw records. -/
def runPipeline (cfg : RunConfig) (raws : List RawService) : RunState :=
  raws.foldl (processStep cfg) ⟨[], []⟩

/-- The flattening of the `serviceMap` values into the final list
handed to the publisher. -/
def formattedServices (st : RunState) : List FormattedService :=
  (st.groups.map Prod.snd).flatten

/-! ## Catalog publisher (shadow collection and swap) -/

/-- The document store as seen through the two collection names used by
the publisher: the live `services` collection (`none` when the
namespace does not exist) and the shadow `service_temps` collection. -/
structure StoreState (α : Type) where
  live : Option (List α)
  shadow : List α
deriving DecidableEq, Repr

/-- What a reader of the live catalog observes in a given store state. -/
def readCatalog {α : Type} (st : StoreState α) : Option (List α) := st.live

/-- The publish sequence of `runUpdate` as the list of store states a
concurrent reader can observe: initial, after `deleteMany` on the
shadow, after `insertMany` into the shadow, after `dropCollection` of
the live catalog, and after `renameCollection` of the shadow onto the
live name. -/
def publishStates {α : Type} (entries : List α) (st0 : StoreState α) :
    List (StoreState α) :=
  let s1 : StoreState α := { st0 with shadow := [] }
  let s2 : StoreState α := { s1 with shadow := s1.shadow ++ entries }
  let s3 : StoreState α := { s2 with live := none }
  let s4 : StoreState α := { live := some s3.shadow, shadow := [] }
  [st0, s1, s2, s3, s4]

/-! ## Structural lemmas about the association-list operations -/

theorem alistGet_alistSet {α : Type} (m : List (String × α)) (k q : String) (v : α) :
    alistGet (alistSet m k v) q = if q = k then some v else alistGet m q := by
  induction m with
  | nil =>
    by_cases h : q = k
    · simp [alistSet, alistGet, h, beq_iff_eq]
    · have hne : (k == q) = false := beq_eq_false_iff_ne.mpr (Ne.symm h)
      simp [alistSet, alistGet, h, hne]
  | cons p rest ih =>
    obtain ⟨k0, v0⟩ := p
    by_cases h0 : k0 = k
    · subst h0
      by_cases hq : q = k0
      · simp [alistSet, alistGet, hq, beq_iff_eq]
      · have hne : (k0 == q) = false := beq_eq_false_iff_ne.mpr (Ne.symm hq)
        simp [alistSet, alistGet, hq, hne, beq_iff_eq]
    · have hbeq : (k0 == k) = false := beq_eq_false_iff_ne.mpr h0
      by_cases hq : q = k
      · subst hq
        have hne : (k0 == q) = false := beq_eq_false_iff_ne.mpr h0
        simp [alistSet, alistGet, hbeq, hne, ih]
      · by_cases h1 : k0 = q <;> simp [alistSet, alistGet, hbeq, h1, beq_iff_eq, ih, hq]

theorem alistGet_ne_none_of_mem {α : Type} (m : List (String × α)) (k : String) (v : α)
    (h : (k, v) ∈ m) : alistGet m k ≠ none := by
  induction m with
  | nil => simp at h
  | cons p rest ih =>
    obtain ⟨k0, v0⟩ := p
    rcases List.mem_cons.mp h with h1 | h1
    · obtain ⟨rfl, rfl⟩ := Prod.mk.injEq .. ▸ h1
      simp [alistGet]
    · by_cases hk : k0 = k <;> simp [alistGet, hk, beq_iff_eq]
      exact ih h1

/-- Flattening the group lists after a `pushGroup` is, up to order, the
old flattening with the new entry appended. -/
theorem pushGroup_flatten_perm {α : Type} (m : List (String × List α)) (k : String) (f : α) :
    (((pushGroup m k f).map Prod.snd).flatten).Perm ((m.map Prod.snd).flatten ++ [f]) := by
  induction m with
  | nil => simp [pushGroup]
  | cons p rest ih =>
    obtain ⟨k0, l0⟩ := p
    by_cases h : k0 = k
    · have hbeq : (k0 == k) = true := by simp [beq_iff_eq, h]
      simp only [pushGroup, hbeq, ite_true, List.map_cons, List.flatten_cons]
      have h1 : (l0 ++ [f]) ++ (rest.map Prod.snd).flatten =
          l0 ++ ([f] ++ (rest.map Prod.snd).flatten) := by simp [List.append_assoc]
      have h2 : (l0 ++ ([f] ++ (rest.map Prod.snd).flatten)).Perm
          (l0 ++ ((rest.map Prod.snd).flatten ++ [f])) :=
        List.Perm.append_left l0 List.perm_append_comm
      have h3 : l0 ++ ((rest.map Prod.snd).flatten ++ [f]) =
          (l0 ++ (rest.map Prod.snd).flatten) ++ [f] := by simp [List.append_assoc]
      rw [h1, ← h3]
      exact h2
    · have hbeq : (k0 == k) = false := by simp [beq_iff_eq, h]
      simp only [pushGroup, hbeq, Bool.false_eq_true, if_false, List.map_cons, List.flatten_cons]
      have h2 : (l0 ++ ((pushGroup rest k f).map Prod.snd).flatten).Perm
          (l0 ++ ((rest.map Prod.snd).flatten ++ [f])) := List.Perm.append_left l0 ih
      have h3 : l0 ++ ((rest.map Prod.snd).flatten ++ [f]) =
          (l0 ++ (rest.map Prod.snd).flatten) ++ [f] := by simp [List.append_assoc]
      rw [← h3]
      exact h2

/-- A dropped record leaves the groups untouched. -/
theorem processStep_groups_none (cfg : RunConfig) (st : RunState) (s : RawService)
    (h : processRaw cfg s = none) : (processStep cfg st s).groups = st.groups := by
  rcases hpr : processRecord cfg s with ⟨out, flag⟩
  rw [processRaw, hpr] at h
  simp only at h
  subst h
  simp only [processStep, hpr]
  cases flag <;> simp

/-- A surviving record is pushed onto its group and nothing else moves. -/
theorem processStep_groups_some (cfg : RunConfig) (st : RunState) (s : RawService)
    (f : FormattedService) (h : processRaw cfg s = some f) :
    (processStep cfg st s).groups = pushGroup st.groups (mapKeyOf f) f := by
  rcases hpr : processRecord cfg s with ⟨out, flag⟩
  rw [processRaw, hpr] at h
  simp only at h
  subst h
  simp only [processStep, hpr]
  cases flag <;> simp

/-- The unknown-service set is the only other run-state component the
loop step can change. -/
theorem processStep_unknown (cfg : RunConfig) (st : RunState) (s : RawService) :
    (processStep cfg st s).unknownServiceCodes = st.unknownServiceCodes ∨
    (processStep cfg st s).unknownServiceCodes = addUnknown st.unknownServiceCodes s.service := by
  rcases hpr : processRecord cfg s with ⟨out, flag⟩
  simp only [processStep, hpr]
  cases out <;> cases flag <;> simp

/-- The flattened output of the loop is, up to order, exactly the list
of records that survive normalization. -/
theorem foldl_processStep_perm (cfg : RunConfig) (raws : List RawService) :
    ∀ st : RunState,
      (((raws.foldl (processStep cfg) st).groups.map Prod.snd).flatten).Perm
        ((st.groups.map Prod.snd).flatten ++ raws.filterMap (processRaw cfg)) := by
  induction raws with
  | nil => intro st; simp
  | cons r rest ih =>
    intro st
    rw [List.foldl_cons]
    cases h : processRaw cfg r with
    | none =>
      have hg := processStep_groups_none cfg st r h
      have h1 := ih (processStep cfg st r)
      rw [hg] at h1
      simpa [List.filterMap_cons, h] using h1
    | some f =>
      have hg := processStep_groups_some cfg st r f h
      have h1 := ih (processStep cfg st r)
      rw [hg] at h1
      have h2 := (pushGroup_flatten_perm st.groups (mapKeyOf f) f).append_right
        (rest.filterMap (processRaw cfg))
      have h3 : ((st.groups.map Prod.snd).flatten ++ [f]) ++ rest.filterMap (processRaw cfg) =
          (st.groups.map Prod.snd).flatten ++ (f :: rest.filterMap (processRaw cfg)) := by
        simp [List.append_assoc]
      rw [h3] at h2
      simpa [List.filterMap_cons, h] using h1.trans h2

/-- The merger output of a run is a permutation of the records that
survive the drop filters. -/
theorem formattedServices_perm (cfg : RunConfig) (raws : List RawService) :
    (formattedServices (runPipeline cfg raws)).Perm (raws.filterMap (processRaw cfg)) := by
  have h := foldl_processStep_perm cfg raws ⟨[], []⟩
  simpa [formattedServices, runPipeline] using h

/-- Field-level specification of a surviving record: positive price,
availability derived from the unit count, the deterministic identity
string, and the provider-selected conversion rate. -/
theorem processRaw_some_spec (cfg : RunConfig) (s : RawService) (f : FormattedService)
    (h : processRaw cfg s = some f) :
    0 < f.price_toman
    ∧ f.available = decide (0 < s.count)
    ∧ f.id = "srv_" ++ jsTrim (jsToLower s.service) ++ "_" ++ jsTrim (jsToLower s.country) ++
        "_" ++ s.operator ++ "_" ++ s.provider
    ∧ f.price_toman = ⌈numOr0 s.price *
        (if s.provider == "sms-activate" then cfg.usdToTomanRate else cfg.rubToTomanRate) *
        (14 / 10 : ℚ)⌉
    ∧ f.provider = s.provider ∧ f.service = s.service ∧ f.success_rate = s.rate := by
  rcases hpr : processRecord cfg s with ⟨out, flag⟩
  rw [processRaw, hpr] at h
  replace h : out = some f := h
  subst h
  simp only [processRecord] at hpr
  split at hpr
  · exact absurd hpr (by simp)
  · split at hpr
    · exact absurd hpr (by simp)
    · split at hpr
      · rename_i hprov
        split at hpr
        · exact absurd hpr (by simp)
        · rename_i hbase
          obtain ⟨hsome, -⟩ := Prod.mk.injEq .. ▸ hpr
          obtain rfl := Option.some.inj hsome
          have hpos : (0 : ℚ) < numOr0 s.price * cfg.usdToTomanRate := not_le.mp hbase
          refine ⟨Int.ceil_pos.mpr (by positivity), rfl, rfl, ?_, rfl, rfl, rfl⟩
          simp only [hprov, if_true]
      · rename_i hprov
        split at hpr
        · exact absurd hpr (by simp)
        · rename_i hbase
          obtain ⟨hsome, -⟩ := Prod.mk.injEq .. ▸ hpr
          obtain rfl := Option.some.inj hsome
          have hpos : (0 : ℚ) < numOr0 s.price * cfg.rubToTomanRate := not_le.mp hbase
          rw [Bool.not_eq_true] at hprov
          refine ⟨Int.ceil_pos.mpr (by positivity), rfl, rfl, ?_, rfl, rfl, rfl⟩
          simp only [hprov, Bool.false_eq_true, if_false]

/-! ## Lemmas about the retry executor -/

theorem withRetryGo_succ {α : Type} (fn : Nat → Except JsError α) (i fuel : Nat)
    (le : Option JsError) :
    withRetryGo fn i (fuel + 1) le =
      match fn i with
      | .ok a => (.ok a, 1)
      | .error e =>
        if isRetryableStatus e.status then
          ((withRetryGo fn (i + 1) fuel (some e)).1, (withRetryGo fn (i + 1) fuel (some e)).2 + 1)
        else
          (.error (some e), 1) := rfl

theorem withRetryGo_ok {α : Type} (fn : Nat → Except JsError α) (i fuel : Nat)
    (le : Option JsError) (a : α) (h : fn i = .ok a) :
    withRetryGo fn i (fuel + 1) le = (.ok a, 1) := by
  rw [withRetryGo_succ, h]

theorem withRetryGo_retryable {α : Type} (fn : Nat → Except JsError α) (i fuel : Nat)
    (le : Option JsError) (e : JsError) (h : fn i = .error e)
    (hr : isRetryableStatus e.status = true) :
    withRetryGo fn i (fuel + 1) le =
      ((withRetryGo fn (i + 1) fuel (some e)).1, (withRetryGo fn (i + 1) fuel (some e)).2 + 1) := by
  rw [withRetryGo_succ, h]
  simp [hr]

theorem withRetryGo_fatal {α : Type} (fn : Nat → Except JsError α) (i fuel : Nat)
    (le : Option JsError) (e : JsError) (h : fn i = .error e)
    (hr : isRetryableStatus e.status = false) :
    withRetryGo fn i (fuel + 1) le = (.error (some e), 1) := by
  rw [withRetryGo_succ, h]
  simp [hr]

theorem withRetryGo_calls_pos {α : Type} (fn : Nat → Except JsError α) (i fuel : Nat)
    (le : Option JsError) (hf : 1 ≤ fuel) : 1 ≤ (withRetryGo fn i fuel le).2 := by
  obtain ⟨k, rfl⟩ : ∃ k, fuel = k + 1 := ⟨fuel - 1, by omega⟩
  rw [withRetryGo_succ]
  cases h : fn i with
  | ok a => simp
  | error e =>
    by_cases hr : isRetryableStatus e.status = true
    · simp [hr]
    · simp [hr]

/-- C3: retry bound.  An operation that fails with status 500 on exactly
the first two attempts and then succeeds is invoked exactly three times
and its success value is returned; an operation that fails with status
500 on every attempt is invoked exactly `maxAttempts = 3` times and the
last observed error is raised. -/
theorem retry_bound {α : Type} (f g : Nat → Except JsError α) (a : α)
    (hf0 : f 0 = .error ⟨some 500⟩) (hf1 : f 1 = .error ⟨some 500⟩) (hf2 : f 2 = .ok a)
    (hg : ∀ i, g i = .error ⟨some 500⟩) :
    withRetry f 3 = (.ok a, 3) ∧ withRetry g 3 = (.error (some ⟨some 500⟩), 3) := by
  have hr : isRetryableStatus (⟨some 500⟩ : JsError).status = true := by decide
  constructor
  · have r2 : withRetryGo f 2 1 (some ⟨some 500⟩) = (.ok a, 1) :=
      withRetryGo_ok f 2 0 _ a hf2
    have r1 : withRetryGo f 1 2 (some ⟨some 500⟩) =
        ((withRetryGo f 2 1 (some ⟨some 500⟩)).1,
          (withRetryGo f 2 1 (some ⟨some 500⟩)).2 + 1) :=
      withRetryGo_retryable f 1 1 (some ⟨some 500⟩) ⟨some 500⟩ hf1 hr
    rw [r2] at r1
    have r0 : withRetryGo f 0 3 none =
        ((withRetryGo f 1 2 (some ⟨some 500⟩)).1,
          (withRetryGo f 1 2 (some ⟨some 500⟩)).2 + 1) :=
      withRetryGo_retryable f 0 2 none ⟨some 500⟩ hf0 hr
    rw [r1] at r0
    rw [withRetry]
    simpa using r0
  · have r3 : withRetryGo g 3 0 (some ⟨some 500⟩) =
        ((.error (some ⟨some 500⟩) : Except (Option JsError) α), 0) := rfl
    have r2 : withRetryGo g 2 1 (some ⟨some 500⟩) =
        ((withRetryGo g 3 0 (some ⟨some 500⟩)).1,
          (withRetryGo g 3 0 (some ⟨some 500⟩)).2 + 1) :=
      withRetryGo_retryable g 2 0 (some ⟨some 500⟩) ⟨some 500⟩ (hg 2) hr
    rw [r3] at r2
    have r1 : withRetryGo g 1 2 (some ⟨some 500⟩) =
        ((withRetryGo g 2 1 (some ⟨some 500⟩)).1,
          (withRetryGo g 2 1 (some ⟨some 500⟩)).2 + 1) :=
      withRetryGo_retryable g 1 1 (some ⟨some 500⟩) ⟨some 500⟩ (hg 1) hr
    rw [r2] at r1
    have r0 : withRetryGo g 0 3 none =
        ((withRetryGo g 1 2 (some ⟨some 500⟩)).1,
          (withRetryGo g 1 2 (some ⟨some 500⟩)).2 + 1) :=
      withRetryGo_retryable g 0 2 none ⟨some 500⟩ (hg 0) hr
    rw [r1] at r0
    rw [withRetry]
    simpa using r0

def flaky500Op : Nat → Except JsError Nat :=
  fun i => if i < 2 then .error ⟨some 500⟩ else .ok 7

def persistent500Op : Nat → Except JsError Nat :=
  fun _ => .error ⟨some 500⟩

/-- Witness for C3 at two concrete operations. -/
theorem retry_bound_witness :
    withRetry flaky500Op 3 = (.ok 7, 3) ∧
    withRetry persistent500Op 3 = (.error (some ⟨some 500⟩), 3) :=
  retry_bound flaky500Op persistent500Op 7 rfl rfl rfl (fun _ => rfl)

/-- C8: retry classification.  For a first attempt failing with error
`e` and at least two configured attempts: when the status is not
retryable the executor re-raises that error immediately after exactly
one invocation; a second invocation happens exactly when the status is
retryable; and retryable means precisely an HTTP status of 429 or at
least 500 (a missing status is not retryable). -/
theorem retry_classification {α : Type} (fn : Nat → Except JsError α) (retries : Nat)
    (e : JsError) (hretries : 2 ≤ retries) (h0 : fn 0 = .error e) :
    (isRetryableStatus e.status = false →
        withRetry fn retries = (.error (some e), 1))
    ∧ (2 ≤ (withRetry fn retries).2 ↔ isRetryableStatus e.status = true)
    ∧ (isRetryableStatus e.status = true ↔
        (e.status = some 429 ∨ ∃ s, e.status = some s ∧ 500 ≤ s)) := by
  obtain ⟨k, rfl⟩ : ∃ k, retries = k + 2 := ⟨retries - 2, by omega⟩
  have hk : k + 2 = (k + 1) + 1 := rfl
  refine ⟨?_, ⟨?_, ?_⟩, ?_⟩
  · intro hf
    rw [withRetry, hk, withRetryGo_fatal fn 0 (k + 1) none e h0 hf]
  · intro h2
    by_contra hnot
    have hf : isRetryableStatus e.status = false := Bool.not_eq_true _ ▸ hnot
    rw [withRetry, hk, withRetryGo_fatal fn 0 (k + 1) none e h0 hf] at h2
    simp at h2
  · intro hret
    have hcall := withRetryGo_calls_pos fn 1 (k + 1) (some e) (by omega)
    have h2 : (withRetry fn (k + 2)).2 = (withRetryGo fn 1 (k + 1) (some e)).2 + 1 := by
      rw [withRetry, hk, withRetryGo_retryable fn 0 (k + 1) none e h0 hret]
    rw [h2]
    omega
  · rcases e with ⟨st⟩
    cases st with
    | none => simp [isRetryableStatus]
    | some s =>
      simp only [isRetryableStatus, Bool.or_eq_true, beq_iff_eq, decide_eq_true_eq,
        Option.some.injEq]
      constructor
      · rintro (rfl | hs)
        · exact Or.inl rfl
        · exact Or.inr ⟨s, rfl, hs⟩
      · rintro (rfl | ⟨t, rfl, ht⟩)
        · exact Or.inl rfl
        · exact Or.inr ht

def fatal404Op : Nat → Except JsError Nat :=
  fun _ => .error ⟨some 404⟩

/-- Witness for C8 at a concrete non-retryable operation. -/
theorem retry_classification_witness :
    (2 ≤ 3 ∧ fatal404Op 0 = .error ⟨some 404⟩) ∧
    withRetry fatal404Op 3 = (.error (some ⟨some 404⟩), 1) :=
  ⟨⟨by omega, rfl⟩, (retry_classification fatal404Op 3 ⟨some 404⟩ (by omega) rfl).1 rfl⟩

/-! ## Concrete fixtures used by the witnesses -/

def wCountryMap : List (String × CountryData) :=
  [("russia", ⟨"RussiaFa", "RU", "russia"⟩)]

def wCfg : RunConfig :=
  { servicePriority := [("telegram", ⟨some "TelegramFa", some 1⟩)]
    countryMap := wCountryMap
    usdToTomanRate := 100
    rubToTomanRate := 150 }

def wRaw5 : RawService :=
  { provider := "5sim", country := "russia", service := "telegram", service_name := none
    operator := "any", price := some 10, count := 3, rate := 95 }

def wRawB : RawService :=
  { provider := "sms-activate", country := "russia", service := "tg"
    service_name := some "Telegram", operator := "any", price := some 2, count := 0, rate := 0 }

def wRawDup : RawService :=
  { provider := "5sim", country := "russia", service := "Telegram", service_name := none
    operator := "any", price := some 10, count := 5, rate := 0 }

def wEntry5 : FormattedService :=
  { id := "srv_telegram_russia_any_5sim", service := "telegram"
    service_persian := "TelegramFa", country := "russia", country_persian := "RussiaFa"
    country_code := "RU", operator := "any", price_toman := 2100, priority := 1
    available := true, success_rate := 95, provider := "5sim" }

def wEntryB : FormattedService :=
  { id := "srv_tg_russia_any_sms-activate", service := "tg"
    service_persian := "TelegramFa", country := "russia", country_persian := "RussiaFa"
    country_code := "RU", operator := "any", price_toman := 280, priority := 1
    available := false, success_rate := 0, provider := "sms-activate" }

def wEntryDup : FormattedService :=
  { id := "srv_telegram_russia_any_5sim", service := "Telegram"
    service_persian := "TelegramFa", country := "russia", country_persian := "RussiaFa"
    country_code := "RU", operator := "any", price_toman := 2100, priority := 1
    available := true, success_rate := 0, provider := "5sim" }

theorem processRaw_wRaw5_eval : processRaw wCfg wRaw5 = some wEntry5 := by
  simp +decide only [processRaw, processRecord, wCfg, wRaw5, wEntry5, wCountryMap, jsTrim,
    jsToLower, jsCanonical, jsOrStr, jsOrOpt, jsOrInt, optStrTruthy, numOr0, alistGet,
    getCountryDataByCanonicalName, generateCanonicalName, isJsWhitespace]
  norm_num
  decide

theorem processRaw_wRawB_eval : processRaw wCfg wRawB = some wEntryB := by
  simp +decide only [processRaw, processRecord, wCfg, wRawB, wEntryB, wCountryMap, jsTrim,
    jsToLower, jsCanonical, jsOrStr, jsOrOpt, jsOrInt, optStrTruthy, numOr0, alistGet,
    getCountryDataByCanonicalName, generateCanonicalName, isJsWhitespace]
  norm_num
  decide

theorem run_wRaw5_wRawB_eval :
    formattedServices (runPipeline wCfg [wRaw5, wRawB]) = [wEntry5, wEntryB] := by
  simp +decide only [formattedServices, runPipeline, List.foldl_cons, List.foldl_nil,
    processStep, processRecord, processRaw, mapKeyOf, pushGroup, addUnknown, wCfg, wRaw5,
    wRawB, wEntry5, wEntryB, wCountryMap, jsTrim, jsToLower, jsCanonical, jsOrStr, jsOrOpt,
    jsOrInt, optStrTruthy, numOr0, alistGet, getCountryDataByCanonicalName,
    generateCanonicalName, isJsWhitespace]
  norm_num
  decide

theorem run_wRaw5_wRawDup_eval :
    formattedServices (runPipeline wCfg [wRaw5, wRawDup]) = [wEntry5, wEntryDup] := by
  simp +decide only [formattedServices, runPipeline, List.foldl_cons, List.foldl_nil,
    processStep, processRecord, processRaw, mapKeyOf, pushGroup, addUnknown, wCfg, wRaw5,
    wRawDup, wEntry5, wEntryDup, wCountryMap, jsTrim, jsToLower, jsCanonical, jsOrStr,
    jsOrOpt, jsOrInt, optStrTruthy, numOr0, alistGet, getCountryDataByCanonicalName,
    generateCanonicalName, isJsWhitespace]
  norm_num
  decide

theorem run_wRaw5_eval :
    formattedServices (runPipeline wCfg [wRaw5]) = [wEntry5] := by
  simp +decide only [formattedServices, runPipeline, List.foldl_cons, List.foldl_nil,
    processStep, processRecord, processRaw, mapKeyOf, pushGroup, addUnknown, wCfg, wRaw5,
    wEntry5, wCountryMap, jsTrim, jsToLower, jsCanonical, jsOrStr, jsOrOpt, jsOrInt,
    optStrTruthy, numOr0, alistGet, getCountryDataByCanonicalName, generateCanonicalName,
    isJsWhitespace]
  norm_num
  decide

/-- C4: published-output invariant.  Every catalog entry in the
published output of a run has a strictly positive retail price, and its
availability flag equals the positivity of the unit count of the raw
record it was normalized from. -/
theorem published_output_invariant (cfg : RunConfig) (raws : List RawService)
    (f : FormattedService) (hf : f ∈ formattedServices (runPipeline cfg raws)) :
    0 < f.price_toman ∧
    ∃ s ∈ raws, processRaw cfg s = some f ∧ f.available = decide (0 < s.count) := by
  have hmem := (formattedServices_perm cfg raws).mem_iff.mp hf
  obtain ⟨s, hs, hsf⟩ := List.mem_filterMap.mp hmem
  obtain ⟨hpos, hav, -⟩ := processRaw_some_spec cfg s f hsf
  exact ⟨hpos, s, hs, hsf, hav⟩

/-- Witness for C4 at a concrete single-record run. -/
theorem published_output_invariant_witness :
    wEntry5 ∈ formattedServices (runPipeline wCfg [wRaw5]) ∧
    (0 < wEntry5.price_toman ∧
      ∃ s ∈ [wRaw5], processRaw wCfg s = some wEntry5 ∧
        wEntry5.available = decide (0 < s.count)) := by
  have hmem : wEntry5 ∈ formattedServices (runPipeline wCfg [wRaw5]) := by
    rw [run_wRaw5_eval]
    exact List.mem_singleton.mpr rfl
  exact ⟨hmem, published_output_invariant wCfg [wRaw5] wEntry5 hmem⟩

/-- C5: the merger is count-preserving and provider-isolating.  The
flattened group output has exactly as many entries as survive the drop
filters, and every surviving entry (from either provider) appears in
the output. -/
theorem merger_count_preserving (cfg : RunConfig) (raws : List RawService) :
    (formattedServices (runPipeline cfg raws)).length =
      (raws.filterMap (processRaw cfg)).length
    ∧ ∀ s ∈ raws, ∀ f : FormattedService, processRaw cfg s = some f →
        f ∈ formattedServices (runPipeline cfg raws) := by
  refine ⟨(formattedServices_perm cfg raws).length_eq, ?_⟩
  intro s hs f hsf
  exact (formattedServices_perm cfg raws).mem_iff.mpr (List.mem_filterMap.mpr ⟨s, hs, hsf⟩)

/-- Witness for C5: both providers report the same service and country
and both corresponding entries appear in the published output. -/
theorem merger_count_preserving_witness :
    (wRaw5 ∈ [wRaw5, wRawB] ∧ processRaw wCfg wRaw5 = some wEntry5 ∧
      wRawB ∈ [wRaw5, wRawB] ∧ processRaw wCfg wRawB = some wEntryB)
    ∧ wEntry5 ∈ formattedServices (runPipeline wCfg [wRaw5, wRawB])
    ∧ wEntryB ∈ formattedServices (runPipeline wCfg [wRaw5, wRawB]) :=
  ⟨⟨List.mem_cons_self _ _, processRaw_wRaw5_eval,
      List.mem_cons_of_mem _ (List.mem_cons_self _ _), processRaw_wRawB_eval⟩,
    (merger_count_preserving wCfg [wRaw5, wRawB]).2 wRaw5 (List.mem_cons_self _ _)
      wEntry5 processRaw_wRaw5_eval,
    (merger_count_preserving wCfg [wRaw5, wRawB]).2 wRawB
      (List.mem_cons_of_mem _ (List.mem_cons_self _ _)) wEntryB processRaw_wRawB_eval⟩

/-- C6 counterexample: two raw records that differ only in the letter
case of the service token survive normalization as two distinct entries
of one run that share the identity string, so the identity map is not
injective over all raw inputs. -/
theorem identity_uniqueness_cx :
    (formattedServices (runPipeline wCfg [wRaw5, wRawDup])).map FormattedService.id =
      ["srv_telegram_russia_any_5sim", "srv_telegram_russia_any_5sim"]
    ∧ ¬ (((formattedServices (runPipeline wCfg [wRaw5, wRawDup])).map
          FormattedService.id).Nodup)
    ∧ wEntry5.service ≠ wEntryDup.service := by
  rw [run_wRaw5_wRawDup_eval]
  refine ⟨by decide, by decide, by decide⟩

/-- C6 amended: the identity string is deterministic in the provider,
the cleaned service code, the cleaned country and the operator; and the
published identities of a run are exactly the identities derived from
the surviving raw records, so they are pairwise distinct whenever the
derived identities are. -/
theorem identity_uniqueness_amended (cfg : RunConfig) (raws : List RawService)
    (h : (((raws.filterMap (processRaw cfg)).map FormattedService.id).Nodup)) :
    (((formattedServices (runPipeline cfg raws)).map FormattedService.id).Nodup)
    ∧ ∀ s ∈ raws, ∀ f : FormattedService, processRaw cfg s = some f →
        f.id = "srv_" ++ jsTrim (jsToLower s.service) ++ "_" ++ jsTrim (jsToLower s.country) ++
          "_" ++ s.operator ++ "_" ++ s.provider := by
  refine ⟨?_, fun s _ f hsf => (processRaw_some_spec cfg s f hsf).2.2.1⟩
  exact (((formattedServices_perm cfg raws).map FormattedService.id).nodup_iff).mpr h

/-- Witness for C6 at a concrete run with distinct derived identities. -/
theorem identity_uniqueness_amended_witness :
    (([wRaw5, wRawB].filterMap (processRaw wCfg)).map FormattedService.id).Nodup
    ∧ (((formattedServices (runPipeline wCfg [wRaw5, wRawB])).map
          FormattedService.id).Nodup
        ∧ ∀ s ∈ [wRaw5, wRawB], ∀ f : FormattedService, processRaw wCfg s = some f →
            f.id = "srv_" ++ jsTrim (jsToLower s.service) ++ "_" ++
              jsTrim (jsToLower s.country) ++ "_" ++ s.operator ++ "_" ++ s.provider) := by
  have hnd : (([wRaw5, wRawB].filterMap (processRaw wCfg)).map FormattedService.id).Nodup := by
    rw [List.filterMap_cons, processRaw_wRaw5_eval, List.filterMap_cons,
      processRaw_wRawB_eval, List.filterMap_nil]
    decide
  exact ⟨hnd, identity_uniqueness_amended wCfg [wRaw5, wRawB] hnd⟩

/-! ## C2: retail price -/

/-- Stated from the claim wording (for comparison with the pipeline):
the retail price as cost times rate times one plus the margin, rounded
up to the configured rounding unit. -/
def claimRetailPrice (cost rate margin unit : ℚ) : ℚ :=
  (⌈cost * rate * (1 + margin) / unit⌉ : ℤ) * unit

def cxCfg151 : RunConfig :=
  { servicePriority := [("telegram", ⟨some "TelegramFa", some 1⟩)]
    countryMap := wCountryMap
    usdToTomanRate := 100
    rubToTomanRate := 151 }

def cxEntry151 : FormattedService :=
  { id := "srv_telegram_russia_any_5sim", service := "telegram"
    service_persian := "TelegramFa", country := "russia", country_persian := "RussiaFa"
    country_code := "RU", operator := "any", price_toman := 2114, priority := 1
    available := true, success_rate := 95, provider := "5sim" }

theorem processRaw_cx151_eval : processRaw cxCfg151 wRaw5 = some cxEntry151 := by
  simp +decide only [processRaw, processRecord, cxCfg151, wRaw5, cxEntry151, wCountryMap,
    jsTrim, jsToLower, jsCanonical, jsOrStr, jsOrOpt, jsOrInt, optStrTruthy, numOr0,
    alistGet, getCountryDataByCanonicalName, generateCanonicalName, isJsWhitespace]
  norm_num
  decide

/-- C2 counterexample: a provider-A record of native cost 10 with RUB
rate 151 is published by the pipeline at price 2114, while the claimed
formula with rounding unit 100 yields 2200, so the published price does
not carry the rounding-unit step. -/
theorem retail_price_rounding_cx :
    (processRaw cxCfg151 wRaw5).map FormattedService.price_toman = some 2114
    ∧ claimRetailPrice 10 151 (4 / 10) 100 = 2200
    ∧ (2114 : ℚ) ≠ 2200 := by
  refine ⟨?_, ?_, by norm_num⟩
  · rw [processRaw_cx151_eval]; rfl
  · unfold claimRetailPrice
    rw [show (10 : ℚ) * 151 * (1 + 4 / 10) / 100 = 2114 / 100 by norm_num]
    rw [show ⌈(2114 : ℚ) / 100⌉ = 22 by rw [Int.ceil_eq_iff]; constructor <;> norm_num]
    norm_num

/-- C2 amended: for every raw offering record that survives to
publication, the published retail price equals the ceiling of native
cost times the provider-selected conversion rate (the USD rate for
sms-activate, the RUB rate otherwise) times 1.4, with no rounding-unit
step; the rounding to the unit of 100 exists only in the read-path
converter, and at the cited provider-A instance (cost 10, RUB rate 150,
margin 0.4, unit 100) pipeline, claimed formula and read-path converter
all give exactly 2100. -/
theorem retail_price_amended (cfg : RunConfig) (s : RawService) (f : FormattedService)
    (h : processRaw cfg s = some f) :
    f.price_toman = ⌈numOr0 s.price *
        (if s.provider == "sms-activate" then cfg.usdToTomanRate else cfg.rubToTomanRate) *
        (14 / 10 : ℚ)⌉
    ∧ (processRaw wCfg wRaw5).map FormattedService.price_toman = some 2100
    ∧ claimRetailPrice 10 150 (4 / 10) 100 = 2100
    ∧ convertToToman (4 / 10) 100 10 "RUB" ⟨150, 100⟩ = 2100 := by
  refine ⟨(processRaw_some_spec cfg s f h).2.2.2.1, ?_, ?_, ?_⟩
  · rw [processRaw_wRaw5_eval]; rfl
  · unfold claimRetailPrice
    rw [show (10 : ℚ) * 150 * (1 + 4 / 10) / 100 = 21 by norm_num]
    norm_num
  · unfold convertToToman
    simp only [beq_self_eq_true, if_true]
    rw [show (10 : ℚ) * 150 * (1 + 4 / 10) / 100 = 21 by norm_num]
    norm_num

/-- Witness for C2 at one concrete record of each provider: the
provider-A record of the claim and an sms-activate record, each
published at the ceiling of cost times its own provider's rate times
1.4. -/
theorem retail_price_amended_witness :
    (processRaw wCfg wRaw5 = some wEntry5 ∧ processRaw wCfg wRawB = some wEntryB)
    ∧ (wEntry5.price_toman = ⌈numOr0 wRaw5.price *
          (if wRaw5.provider == "sms-activate" then wCfg.usdToTomanRate
           else wCfg.rubToTomanRate) * (14 / 10 : ℚ)⌉
        ∧ (processRaw wCfg wRaw5).map FormattedService.price_toman = some 2100
        ∧ claimRetailPrice 10 150 (4 / 10) 100 = 2100
        ∧ convertToToman (4 / 10) 100 10 "RUB" ⟨150, 100⟩ = 2100)
    ∧ wEntryB.price_toman = ⌈numOr0 wRawB.price *
        (if wRawB.provider == "sms-activate" then wCfg.usdToTomanRate
         else wCfg.rubToTomanRate) * (14 / 10 : ℚ)⌉ :=
  ⟨⟨processRaw_wRaw5_eval, processRaw_wRawB_eval⟩,
    retail_price_amended wCfg wRaw5 wEntry5 processRaw_wRaw5_eval,
    (retail_price_amended wCfg wRawB wEntryB processRaw_wRawB_eval).1⟩

/-! ## C7: currency-rate disjointness -/

/-- C7: the conversion rate used for a record is determined solely by
its provider.  A 5sim record is priced identically under any value of
the USD rate, and an sms-activate record is priced identically under
any value of the RUB rate. -/
theorem currency_rate_disjoint (sp : List (String × PriorityInfo))
    (cm : List (String × CountryData)) (usd usd' rub rub' : ℚ) (s : RawService) :
    (s.provider = "5sim" →
      processRaw ⟨sp, cm, usd, rub⟩ s = processRaw ⟨sp, cm, usd', rub⟩ s)
    ∧ (s.provider = "sms-activate" →
      processRaw ⟨sp, cm, usd, rub⟩ s = processRaw ⟨sp, cm, usd, rub'⟩ s) := by
  constructor
  · intro hp
    have hb : (s.provider == "sms-activate") = false := by rw [hp]; decide
    simp only [processRaw, processRecord, hb, Bool.false_eq_true, if_false]
  · intro hp
    have hb : (s.provider == "sms-activate") = true := by rw [hp]; decide
    simp only [processRaw, processRecord, hb, if_true]

/-- Witness for C7: varying the USD rate leaves the concrete 5sim
record's entry unchanged. -/
theorem currency_rate_disjoint_witness :
    wRaw5.provider = "5sim" ∧
    processRaw ⟨wCfg.servicePriority, wCountryMap, 100, 150⟩ wRaw5 =
      processRaw ⟨wCfg.servicePriority, wCountryMap, 777, 150⟩ wRaw5 :=
  ⟨rfl, (currency_rate_disjoint wCfg.servicePriority wCountryMap 100 777 150 150 wRaw5).1 rfl⟩

/-! ## C9: unmappable-country handling -/

def w9Raw : RawService :=
  { provider := "5sim", country := "atlantis", service := "telegram", service_name := none
    operator := "any", price := some 10, count := 3, rate := 0 }

/-- C9 counterexample: a record of a known service whose country has no
entry in the unified country map produces no catalog entry, and the run
state is left entirely unchanged — in particular no counter of the run
is incremented, because the loop keeps no unmapped-country counter at
all (its only counter set is the unknown-service one, which stays
empty here). -/
theorem unmapped_counter_cx :
    processStep wCfg ⟨[], []⟩ w9Raw = ⟨[], []⟩ ∧ processRaw wCfg w9Raw = none := by
  constructor <;>
    simp +decide only [processStep, processRecord, processRaw, addUnknown, wCfg, w9Raw,
      wCountryMap, jsTrim, jsToLower, jsCanonical, jsOrStr, jsOrOpt, jsOrInt, optStrTruthy,
      numOr0, alistGet, getCountryDataByCanonicalName, generateCanonicalName, isJsWhitespace,
      if_true, if_false]

/-- C9 amended: a raw record whose country token has no entry in the
unified country map yields no catalog entry and leaves the groups
untouched; the loop body is a total function (no exception), and the
only run-state component it may touch is the unknown-service-code set —
there is no unmapped-country counter. -/
theorem unmappable_country_amended (cfg : RunConfig) (st : RunState) (s : RawService)
    (hname : jsOrStr s.service_name s.service ≠ "")
    (hc : getCountryDataByCanonicalName cfg.countryMap (jsTrim (jsToLower s.country)) = none) :
    processRaw cfg s = none
    ∧ (processStep cfg st s).groups = st.groups
    ∧ ((processStep cfg st s).unknownServiceCodes = st.unknownServiceCodes ∨
        (processStep cfg st s).unknownServiceCodes =
          addUnknown st.unknownServiceCodes s.service) := by
  have hb : (jsOrStr s.service_name s.service == "") = false :=
    beq_eq_false_iff_ne.mpr hname
  have hpr : processRaw cfg s = none := by
    simp only [processRaw, processRecord, hb, Bool.false_eq_true, if_false, hc]
  exact ⟨hpr, processStep_groups_none cfg st s hpr, processStep_unknown cfg st s⟩

/-- Witness for C9 at the concrete unmappable-country record. -/
theorem unmappable_country_amended_witness :
    (jsOrStr w9Raw.service_name w9Raw.service ≠ "" ∧
      getCountryDataByCanonicalName wCfg.countryMap (jsTrim (jsToLower w9Raw.country)) = none)
    ∧ (processRaw wCfg w9Raw = none
        ∧ (processStep wCfg ⟨[], []⟩ w9Raw).groups = (⟨[], []⟩ : RunState).groups
        ∧ ((processStep wCfg ⟨[], []⟩ w9Raw).unknownServiceCodes =
              (⟨[], []⟩ : RunState).unknownServiceCodes ∨
            (processStep wCfg ⟨[], []⟩ w9Raw).unknownServiceCodes =
              addUnknown (⟨[], []⟩ : RunState).unknownServiceCodes w9Raw.service)) :=
  ⟨⟨by decide, by decide⟩,
    unmappable_country_amended wCfg ⟨[], []⟩ w9Raw (by decide) (by decide)⟩

/-! ## C1: atomic visibility of the publish sequence -/

/-- C1: the publish sequence is not atomic for readers.  With a
nonempty prior live catalog, the reader-visible trace of the four store
operations reads: prior, prior, prior, missing, new — the state after
`dropCollection` of the live catalog and before `renameCollection` of
the shadow exposes a missing catalog to any reader, although a prior
catalog existed. -/
theorem publish_drop_window :
    (publishStates [2] ({ live := some [1], shadow := [] } : StoreState Nat)).map readCatalog =
      [some [1], some [1], some [1], none, some [2]] := by
  decide

/-! ## C10: completeness gap of the country resolver -/

theorem countryMapStep1_get_none (tr codes : List (String × String)) (k0 : String)
    (hmiss : alistGet tr k0 = none ∨ alistGet codes k0 = none)
    (m : List (String × CountryData)) (name : String) (hm : alistGet m k0 = none) :
    alistGet (countryMapStep1 tr codes m name) k0 = none := by
  unfold countryMapStep1
  cases h1 : alistGet tr (generateCanonicalName name) with
  | none => exact hm
  | some p =>
    cases h2 : alistGet codes (generateCanonicalName name) with
    | none => exact hm
    | some c =>
      by_cases hk : generateCanonicalName name = k0
      · exfalso
        rw [hk] at h1 h2
        rcases hmiss with h | h
        · rw [h] at h1; cases h1
        · rw [h] at h2; cases h2
      · by_cases hcond : (!(p == "") && !(c == "")) = true
        · simp only [hcond, if_true, alistGet_alistSet]
          rw [if_neg (fun he => hk he.symm)]
          exact hm
        · simp only [Bool.not_eq_true] at hcond
          simp [hcond, hm]

theorem fold1_get_none (tr codes : List (String × String)) (k0 : String)
    (hmiss : alistGet tr k0 = none ∨ alistGet codes k0 = none) :
    ∀ (l : List String) (m : List (String × CountryData)), alistGet m k0 = none →
      alistGet (l.foldl (countryMapStep1 tr codes) m) k0 = none := by
  intro l
  induction l with
  | nil => exact fun m hm => hm
  | cons name rest ih =>
    intro m hm
    rw [List.foldl_cons]
    exact ih _ (countryMapStep1_get_none tr codes k0 hmiss m name hm)

theorem fold2_get_none (tr codes : List (String × String)) (k0 : String)
    (hkeys : ∀ p ∈ tr, generateCanonicalName p.1 = p.1)
    (hmiss : alistGet tr k0 = none ∨ alistGet codes k0 = none) :
    ∀ (l : List (String × String)), (∀ p ∈ l, p ∈ tr) →
      ∀ m : List (String × CountryData), alistGet m k0 = none →
        alistGet (l.foldl (countryMapStep2 codes) m) k0 = none := by
  intro l
  induction l with
  | nil => exact fun _ m hm => hm
  | cons kv rest ih =>
    intro hsub m hm
    rw [List.foldl_cons]
    apply ih (fun p hp => hsub p (List.mem_cons_of_mem _ hp))
    unfold countryMapStep2
    by_cases hk : generateCanonicalName kv.1 = k0
    · have hkv : kv ∈ tr := hsub kv (List.mem_cons_self _ _)
      have hkey : kv.1 = k0 := by rw [← hkeys kv hkv]; exact hk
      have htr : alistGet tr k0 ≠ none := by
        rw [← hkey]
        exact alistGet_ne_none_of_mem tr kv.1 kv.2 hkv
      rcases hmiss with h | h
      · exact absurd h htr
      · rw [hk, hm, h]
        simp [hm]
    · split
      · exact hm
      · split
        · split
          · rw [alistGet_alistSet, if_neg (fun he => hk he.symm)]
            exact hm
          · exact hm
        · exact hm

theorem fold1_truthy (tr codes : List (String × String)) :
    ∀ (l : List String) (m : List (String × CountryData)),
      (∀ k cd, alistGet m k = some cd → cd.persian ≠ "" ∧ cd.code ≠ "") →
      ∀ k cd, alistGet (l.foldl (countryMapStep1 tr codes) m) k = some cd →
        cd.persian ≠ "" ∧ cd.code ≠ "" := by
  intro l
  induction l with
  | nil => exact fun m hm => hm
  | cons name rest ih =>
    intro m hm
    rw [List.foldl_cons]
    apply ih
    intro k cd hcd
    unfold countryMapStep1 at hcd
    split at hcd
    · split at hcd
      · rename_i hcond
        rw [alistGet_alistSet] at hcd
        split at hcd
        · obtain rfl := Option.some.inj hcd
          simp only [Bool.and_eq_true, Bool.not_eq_true', beq_eq_false_iff_ne] at hcond
          exact hcond
        · exact hm k cd hcd
      · exact hm k cd hcd
    · exact hm k cd hcd

theorem fold2_truthy (codes : List (String × String)) :
    ∀ (l : List (String × String)), (∀ p ∈ l, p.2 ≠ "") →
      ∀ m : List (String × CountryData),
        (∀ k cd, alistGet m k = some cd → cd.persian ≠ "" ∧ cd.code ≠ "") →
        ∀ k cd, alistGet (l.foldl (countryMapStep2 codes) m) k = some cd →
          cd.persian ≠ "" ∧ cd.code ≠ "" := by
  intro l
  induction l with
  | nil => exact fun _ m hm => hm
  | cons kv rest ih =>
    intro hl m hm
    rw [List.foldl_cons]
    apply ih (fun p hp => hl p (List.mem_cons_of_mem _ hp))
    intro k cd hcd
    unfold countryMapStep2 at hcd
    split at hcd
    · exact hm k cd hcd
    · split at hcd
      · split at hcd
        · rename_i hcond
          rw [alistGet_alistSet] at hcd
          split at hcd
          · obtain rfl := Option.some.inj hcd
            simp only [Bool.not_eq_true', beq_eq_false_iff_ne] at hcond
            exact ⟨hl kv (List.mem_cons_self _ _), hcond⟩
          · exact hm k cd hcd
        · exact hm k cd hcd
      · exact hm k cd hcd

/-- C10: completeness gap of the resolver.  With the two reference
tables keyed by canonical names and nonempty translation values, every
entry of the unified country map carries a nonempty Persian display
name and a nonempty dialing code; a provider-supplied country name
whose canonical key lacks a translation entry or a code entry is wholly
absent from the map, resolution for it returns not-found, and every raw
offering whose country token canonicalizes to that key is dropped from
the run without any entry. -/
theorem resolver_completeness_gap (sms : List String) (tr codes : List (String × String))
    (hkeys : ∀ p ∈ tr, generateCanonicalName p.1 = p.1)
    (hvals : ∀ p ∈ tr, p.2 ≠ "")
    (name : String) (_hname : name ∈ sms)
    (hmiss : alistGet tr (generateCanonicalName name) = none ∨
      alistGet codes (generateCanonicalName name) = none) :
    (∀ k cd, alistGet (buildUnifiedCountryMap sms tr codes) k = some cd →
        cd.persian ≠ "" ∧ cd.code ≠ "")
    ∧ getCountryDataByCanonicalName (buildUnifiedCountryMap sms tr codes) name = none
    ∧ ∀ (sp : List (String × PriorityInfo)) (usd rub : ℚ) (s : RawService),
        generateCanonicalName (jsTrim (jsToLower s.country)) = generateCanonicalName name →
        processRaw ⟨sp, buildUnifiedCountryMap sms tr codes, usd, rub⟩ s = none := by
  have habsent : alistGet (buildUnifiedCountryMap sms tr codes)
      (generateCanonicalName name) = none := by
    unfold buildUnifiedCountryMap
    exact fold2_get_none tr codes (generateCanonicalName name) hkeys hmiss tr
      (fun p hp => hp) _
      (fold1_get_none tr codes (generateCanonicalName name) hmiss sms [] rfl)
  refine ⟨?_, habsent, ?_⟩
  · unfold buildUnifiedCountryMap
    exact fold2_truthy codes tr hvals _
      (fold1_truthy tr codes sms [] (fun k cd hcd => by cases hcd))
  · intro sp usd rub s hmatch
    have hcountry : getCountryDataByCanonicalName (buildUnifiedCountryMap sms tr codes)
        (jsTrim (jsToLower s.country)) = none := by
      rw [getCountryDataByCanonicalName, hmatch]
      exact habsent
    by_cases hn : (jsOrStr s.service_name s.service == "") = true
    · simp [processRaw, processRecord, hn]
    · simp [processRaw, processRecord, hn, hcountry]

def w10Sms : List String := ["Atlantis", "Russia"]

def w10Tr : List (String × String) := [("russia", "RussiaFa")]

def w10Codes : List (String × String) := [("russia", "RU"), ("atlantis", "AT")]

def w10Raw : RawService :=
  { provider := "5sim", country := "Atlantis", service := "telegram", service_name := none
    operator := "any", price := some 10, count := 1, rate := 0 }

/-- Witness for C10: a provider-supplied country with a dialing code
but no translation entry is absent from the map and its offering is
dropped. -/
theorem resolver_completeness_gap_witness :
    ((∀ p ∈ w10Tr, generateCanonicalName p.1 = p.1) ∧ (∀ p ∈ w10Tr, p.2 ≠ "") ∧
      "Atlantis" ∈ w10Sms ∧
      (alistGet w10Tr (generateCanonicalName "Atlantis") = none ∨
        alistGet w10Codes (generateCanonicalName "Atlantis") = none))
    ∧ getCountryDataByCanonicalName (buildUnifiedCountryMap w10Sms w10Tr w10Codes)
        "Atlantis" = none
    ∧ processRaw ⟨[], buildUnifiedCountryMap w10Sms w10Tr w10Codes, 1, 1⟩ w10Raw = none := by
  have hk : ∀ p ∈ w10Tr, generateCanonicalName p.1 = p.1 := by decide
  have hv : ∀ p ∈ w10Tr, p.2 ≠ "" := by decide
  have hm : alistGet w10Tr (generateCanonicalName "Atlantis") = none ∨
      alistGet w10Codes (generateCanonicalName "Atlantis") = none := Or.inl (by decide)
  have main := resolver_completeness_gap w10Sms w10Tr w10Codes hk hv "Atlantis"
    (by decide) hm
  exact ⟨⟨hk, hv, by decide, hm⟩, main.2.1, main.2.2 [] 1 1 w10Raw (by decide)⟩
